import Mathlib

/-!
# Verification of the scraper's persistence and pagination core

This file is a shallow embedding, in Lean 4, of the parts of the
`scraper-scuffers` repository that carry the design decisions described in
its specification:

* `src/scraper/database.py` — price parsing (`SupabaseDB._parse_price`),
  record formatting and the required-field gate
  (`SupabaseDB._format_product_for_db`, including the SHA-256 identity),
  and the dedup/chunk/upsert driver (`SupabaseDB.upsert_products`);
* `src/scraper/browser_scraper.py` — the "load more" pagination loop
  (`BrowserScraper.scrape_all_products`) and the per-container extraction
  pass (`BrowserScraper._extract_products_from_page`).

Modelling conventions:

* Python strings are Lean `String`s, processed as `List Char` where the
  source uses `str.strip`, `str.replace` on single characters, or the
  regex `[\d.]+` (all of which are character-local).
* Python `float` results of `float(token)` are modelled exactly as
  rationals for in-range values, together with an explicit `inf`
  constructor for decimal values that overflow an IEEE-754 double
  (Python's `float(str)` returns `inf`, it does not raise, when the
  decimal value is at least `2^1024 - 2^970`).  Every (in)equality decided
  in this file involves values far from any rounding boundary, so the
  exact-rational reading of finite values is faithful for the claims at
  hand.
* Python dict keys that are only ever written with truthy values are
  modelled as `Option` fields; "key absent" and "key present with value
  None" are identified (the code's truthiness tests treat them alike at
  every point used here).
* External effects (the PostgREST sink, the Playwright page) are modelled
  as explicit oracle functions passed to the embedded code: the sink is a
  function from a chunk to a success flag, the page is a pair of functions
  giving, per attempt, the outcome of the "Load More" button scan and the
  currently extractable product list.
-/

set_option exponentiation.threshold 1100
set_option maxRecDepth 4000

/-! ## Character-level helpers shared by the Python string operations -/

/-- Python `str.strip()` (whitespace both ends), on a character list. -/
def pyStrip (l : List Char) : List Char :=
  ((l.dropWhile Char.isWhitespace).reverse.dropWhile Char.isWhitespace).reverse

/-- A character matched by the regex class `[\d.]`. -/
def isNumChar (c : Char) : Bool :=
  c.isDigit || c = '.'

/-- `re.search(r'[\d.]+', s)`: the leftmost maximal run of characters in
`[\d.]`, or `none` when no such character occurs. -/
def firstNumToken : List Char → Option (List Char)
  | [] => none
  | c :: rest =>
    if isNumChar c then some (c :: rest.takeWhile isNumChar)
    else firstNumToken rest

/-- The usual base-10 reading of a digit list. -/
def natOfDigits (l : List Char) : Nat :=
  l.foldl (fun a c => 10 * a + (c.toNat - 48)) 0

/-! ## Python floats, as far as this code can observe them -/

/-- The result of a successful Python `float(...)` call: an in-range value
(kept exact as a rational) or positive infinity. Negative values never
arise here because the regex `[\d.]+` admits no sign. -/
inductive PyFloat where
  | finite (q : Rat)
  | inf
deriving DecidableEq, Repr

/-- Decimal values at least `2^1024 - 2^970` round to `inf` under IEEE-754
round-to-nearest-even, which is what CPython's `float(str)` performs. -/
def doubleOvfThreshold : Rat := mkRat ((2 ^ 1024 - 2 ^ 970 : Nat) : Int) 1

/-- The exact rational value of a decimal token split as integer digits and
fraction digits. -/
def decimalValue (intPart fracPart : List Char) : Rat :=
  mkRat ((natOfDigits intPart * 10 ^ fracPart.length + natOfDigits fracPart : Nat) : Int)
    (10 ^ fracPart.length)

/-- `float(token)` for a token drawn from the class `[\d.]+`: it parses iff
the token has at least one digit and at most one dot (`ValueError`
otherwise, which the caller catches), and overflows to `inf` past the
double range. -/
def floatOfToken (tok : List Char) : Option PyFloat :=
  if tok.count '.' ≤ 1 ∧ (tok.filter Char.isDigit) ≠ [] then
    let q := decimalValue (tok.takeWhile (fun c => c ≠ '.'))
      ((tok.dropWhile (fun c => c ≠ '.')).drop 1)
    some (if doubleOvfThreshold ≤ q then PyFloat.inf else PyFloat.finite q)
  else
    none

/-! ## `SupabaseDB._parse_price` -/

/-- The comma-to-period rewrite used for European decimal commas:
`price_str.replace(',', '.')`. -/
def commaToDot (l : List Char) : List Char :=
  l.map (fun c => if c = ',' then '.' else c)

/-- The thousands-separator strip: `price_str.replace(',', '')`. -/
def stripCommas (l : List Char) : List Char :=
  l.filter (fun c => c ≠ ',')

/-- The tail of `_parse_price` after the separator rewriting: find the
first `[\d.]+` token and `float` it (`database.py:229-235`). -/
def parseFromChars (cs : List Char) : Option PyFloat :=
  match firstNumToken cs with
  | none => none
  | some tok => floatOfToken tok

/-- Shallow embedding of `SupabaseDB._parse_price` (`database.py:203-239`):
falsy input returns `None`; otherwise strip, rewrite a lone comma
convention to a period or drop commas when both separators occur, search
for the first `[\d.]+` token and `float` it, with every failure caught and
degraded to `None`. -/
def parse_price (priceStr : Option String) : Option PyFloat :=
  match priceStr with
  | none => none
  | some s =>
    if s = "" then none
    else
      let cs := pyStrip s.toList
      if cs.contains ',' ∧ ¬ cs.contains '.' then parseFromChars (commaToDot cs)
      else if cs.contains ',' ∧ cs.contains '.' then parseFromChars (stripCommas cs)
      else parseFromChars cs

/-! ## SHA-256 (`hashlib.sha256(...).hexdigest()` on UTF-8 bytes)

The identity of a formatted record is
`hashlib.sha256(f"{source}:{product_url}".encode('utf-8')).hexdigest()`
(`database.py:152-155`).  The standard FIPS 180-4 algorithm is embedded
below over `Nat` words reduced mod `2^32`, byte lists for the message, and
lowercase hex output, matching `hexdigest`. -/

/-- Truncation to a 32-bit word. -/
def w32 (n : Nat) : Nat := n % 4294967296

/-- Right rotation of a 32-bit word. -/
def rotr32 (b n : Nat) : Nat := w32 ((n >>> b) ||| (n <<< (32 - b)))

def shaCh (x y z : Nat) : Nat := (x &&& y) ^^^ ((4294967295 - x) &&& z)

def shaMaj (x y z : Nat) : Nat := (x &&& y) ^^^ (x &&& z) ^^^ (y &&& z)

def bigSigma0 (x : Nat) : Nat := rotr32 2 x ^^^ rotr32 13 x ^^^ rotr32 22 x

def bigSigma1 (x : Nat) : Nat := rotr32 6 x ^^^ rotr32 11 x ^^^ rotr32 25 x

def smallSigma0 (x : Nat) : Nat := rotr32 7 x ^^^ rotr32 18 x ^^^ (x >>> 3)

def smallSigma1 (x : Nat) : Nat := rotr32 17 x ^^^ rotr32 19 x ^^^ (x >>> 10)

/-- The 64 SHA-256 round constants. -/
def shaK : List Nat :=
  [1116352408, 1899447441, 3049323471, 3921009573,
   961987163, 1508970993, 2453635748, 2870763221,
   3624381080, 310598401, 607225278, 1426881987,
   1925078388, 2162078206, 2614888103, 3248222580,
   3835390401, 4022224774, 264347078, 604807628,
   770255983, 1249150122, 1555081692, 1996064986,
   2554220882, 2821834349, 2952996808, 3210313671,
   3336571891, 3584528711, 113926993, 338241895,
   666307205, 773529912, 1294757372, 1396182291,
   1695183700, 1986661051, 2177026350, 2456956037,
   2730485921, 2820302411, 3259730800, 3345764771,
   3516065817, 3600352804, 4094571909, 275423344,
   430227734, 506948616, 659060556, 883997877,
   958139571, 1322822218, 1537002063, 1747873779,
   1955562222, 2024104815, 2227730452, 2361852424,
   2428436474, 2756734187, 3204031479, 3329325298]

/-- The eight working variables of the compression function. -/
structure ShaState where
  a : Nat
  b : Nat
  c : Nat
  d : Nat
  e : Nat
  f : Nat
  g : Nat
  h : Nat
deriving Repr, DecidableEq

/-- FIPS 180-4 initial hash value. -/
def shaInit : ShaState :=
  ⟨1779033703, 3144134277, 1013904242, 2773480762,
   1359893119, 2600822924, 528734635, 1541459225⟩

/-- Extend a 16-word schedule to 64 words (k is the number of words still
to produce). -/
def extendSchedule : List Nat → Nat → List Nat
  | w, 0 => w
  | w, k + 1 =>
    let n := w.length
    let next := w32 (smallSigma1 (w.getD (n - 2) 0) + w.getD (n - 7) 0 +
      smallSigma0 (w.getD (n - 15) 0) + w.getD (n - 16) 0)
    extendSchedule (w ++ [next]) k

/-- One SHA-256 round, consuming one `(constant, scheduleWord)` pair. -/
def shaRound (st : ShaState) (kw : Nat × Nat) : ShaState :=
  let t1 := w32 (st.h + bigSigma1 st.e + shaCh st.e st.f st.g + kw.1 + kw.2)
  let t2 := w32 (bigSigma0 st.a + shaMaj st.a st.b st.c)
  ⟨w32 (t1 + t2), st.a, st.b, st.c, w32 (st.d + t1), st.e, st.f, st.g⟩

/-- Compress one 512-bit block (given as 16 words) into the running hash. -/
def compressBlock (h0 : ShaState) (block : List Nat) : ShaState :=
  let w := extendSchedule block 48
  let st := (shaK.zip w).foldl shaRound h0
  ⟨w32 (h0.a + st.a), w32 (h0.b + st.b), w32 (h0.c + st.c), w32 (h0.d + st.d),
   w32 (h0.e + st.e), w32 (h0.f + st.f), w32 (h0.g + st.g), w32 (h0.h + st.h)⟩

/-- Worker for `chunksOf`; the fuel argument only bounds the recursion
depth (one unit per produced chunk suffices whenever it is at least the
list length, since every chunk consumes at least one element). -/
def chunksOfGo (n : Nat) : Nat → List α → List (List α)
  | _, [] => []
  | 0, _ :: _ => []
  | fuel + 1, x :: xs => (x :: xs.take (n - 1)) :: chunksOfGo n fuel (xs.drop (n - 1))

/-- Fixed-size chunking of a list, as `l[i:i+n]` slicing over
`range(0, len(l), n)` produces (`n` is positive at every use site). -/
def chunksOf (n : Nat) (l : List α) : List (List α) :=
  chunksOfGo n l.length l

/-- SHA-256 padding: append `0x80`, zeros, and the 64-bit big-endian bit
length, reaching a multiple of 64 bytes. -/
def shaPad (msg : List Nat) : List Nat :=
  let len := msg.length
  let zeros := (119 - len % 64) % 64
  msg ++ [0x80] ++ List.replicate zeros 0 ++
    (List.range 8).map (fun i => (8 * len) >>> (8 * (7 - i)) &&& 255)

/-- Big-endian 32-bit words from a 64-byte block. -/
def wordsOfBlock (block : List Nat) : List Nat :=
  (chunksOf 4 block).map (fun b =>
    b.getD 0 0 <<< 24 ||| b.getD 1 0 <<< 16 ||| b.getD 2 0 <<< 8 ||| b.getD 3 0)

/-- SHA-256 of a byte list, as the eight final hash words. -/
def sha256Words (msg : List Nat) : List Nat :=
  let final := ((chunksOf 64 (shaPad msg)).map wordsOfBlock).foldl compressBlock shaInit
  [final.a, final.b, final.c, final.d, final.e, final.f, final.g, final.h]

/-- Lowercase hex digit. -/
def hexDigit (n : Nat) : Char :=
  if n < 10 then Char.ofNat (48 + n) else Char.ofNat (87 + n)

/-- Eight lowercase hex digits of a 32-bit word, most significant first. -/
def hex8 (w : Nat) : List Char :=
  (List.range 8).map (fun i => hexDigit ((w >>> (4 * (7 - i))) &&& 15))

/-- UTF-8 encoding of one character, as `str.encode('utf-8')` produces. -/
def utf8Bytes (c : Char) : List Nat :=
  let n := c.toNat
  if n < 0x80 then [n]
  else if n < 0x800 then
    [0xc0 ||| (n >>> 6), 0x80 ||| (n &&& 0x3f)]
  else if n < 0x10000 then
    [0xe0 ||| (n >>> 12), 0x80 ||| ((n >>> 6) &&& 0x3f), 0x80 ||| (n &&& 0x3f)]
  else
    [0xf0 ||| (n >>> 18), 0x80 ||| ((n >>> 12) &&& 0x3f),
     0x80 ||| ((n >>> 6) &&& 0x3f), 0x80 ||| (n &&& 0x3f)]

/-- `hashlib.sha256(s.encode('utf-8')).hexdigest()`. -/
def sha256hex (s : String) : String :=
  String.mk (((sha256Words ((s.toList.map utf8Bytes).flatten)).map hex8).flatten)



/-! ## `SupabaseDB._format_product_for_db`

An input product dict.  Fields the formatter reads are modelled as
`Option`s; string truthiness (`if not x`) is `none` or the empty string.
The `embedding` value is opaque to the formatter, so it is carried as an
abstract list of rationals. -/

structure RawProduct where
  source : Option String := none
  product_url : Option String := none
  image_url : Option String := none
  title : Option String := none
  brand : Option String := none
  gender : Option String := none
  price : Option String := none
  currency : Option String := none
  size : Option String := none
  second_hand : Option Bool := none
  affiliate_url : Option String := none
  description : Option String := none
  category : Option String := none
  embedding : Option (List Rat) := none
  original_currency : Option String := none
  merchant_name : Option String := none
  country : Option String := none
deriving Repr, DecidableEq

/-- The optional `metadata` JSON object.  `json.dumps` of the metadata dict
is injective on the fields collected here, so the model keeps the fields
themselves instead of the serialized string. -/
structure ProductMetadata where
  original_currency : Option String
  merchant_name : Option String
  country : Option String
deriving Repr, DecidableEq

/-- The formatted row built for the `products` table.  Keys that the code
adds only conditionally (`affiliate_url`, `description`, `category`,
`embedding`, `metadata`) are `Option` fields; the later "normalize all
products to have the same keys (fill missing with None)" pass in
`upsert_products` is then the identity and is not repeated there. -/
structure DbProduct where
  id : String
  source : String
  product_url : String
  image_url : String
  title : String
  brand : Option String
  gender : Option String
  price : Option PyFloat
  currency : String
  size : Option String
  second_hand : Bool
  affiliate_url : Option String
  description : Option String
  category : Option String
  embedding : Option (List Rat)
  metadata : Option ProductMetadata
deriving Repr, DecidableEq

/-- Python truthiness of an optional string. -/
def strFalsy (s : Option String) : Bool :=
  match s with
  | none => true
  | some t => t = ""

/-- `if X in product and product[X]` for an optional string field. -/
def presentTruthy (s : Option String) : Option String :=
  match s with
  | some t => if t = "" then none else some t
  | none => none

/-- Shallow embedding of `SupabaseDB._format_product_for_db`
(`database.py:131-201`): gate on the four required fields being truthy,
derive `id = sha256(source + ":" + product_url)`, parse the price, default
the currency to `"EUR"` and `second_hand` to `False`, keep truthy optional
fields, and collect the metadata entries. -/
def format_product_for_db (p : RawProduct) : Option DbProduct :=
  match p.source, p.product_url, p.image_url, p.title with
  | some source, some product_url, some image_url, some title =>
    if source = "" ∨ product_url = "" ∨ image_url = "" ∨ title = "" then none
    else
      some
        { id := sha256hex (source ++ ":" ++ product_url)
          source := source
          product_url := product_url
          image_url := image_url
          title := title
          brand := p.brand
          gender := p.gender
          price := parse_price p.price
          currency := p.currency.getD "EUR"
          size := p.size
          second_hand := p.second_hand.getD false
          affiliate_url := presentTruthy p.affiliate_url
          description := presentTruthy p.description
          category := presentTruthy p.category
          embedding := p.embedding
          metadata :=
            if p.original_currency.isNone ∧ p.merchant_name.isNone ∧ p.country.isNone then
              none
            else
              some ⟨p.original_currency, p.merchant_name, p.country⟩ }
  | _, _, _, _ => none

/-! ## `SupabaseDB.upsert_products`

The PostgREST sink is an oracle `sink : List DbProduct → Bool` giving each
chunk's outcome (`True` for HTTP 200/201/204, `False` for any other status
or a raised exception — both are caught and `continue`).  The embedded
driver returns the success flag computed by the code together with the
list of chunks actually posted, in order, for observability. -/

/-- The `f"{source}:{product_url}"` dedup key of a formatted product. -/
def dedupKey (q : DbProduct) : String :=
  q.source ++ ":" ++ q.product_url

/-- First pass of `upsert_products` (`database.py:56-68`): keep, in order,
the first occurrence of each `source:product_url` key. -/
def dedupFirstByKey (l : List DbProduct) : List DbProduct :=
  (l.foldl
    (fun acc q =>
      if (acc.2.contains (dedupKey q) : Bool) then acc
      else (acc.1 ++ [q], dedupKey q :: acc.2))
    (([], []) : List DbProduct × List String)).1

/-- Python-dict insertion: overwrite in place when the key exists, append
otherwise (insertion order is preserved, values are last-write-wins). -/
def dictInsert (acc : List (String × DbProduct)) (key : String) (q : DbProduct) :
    List (String × DbProduct) :=
  if (acc.map Prod.fst).contains key then
    acc.map (fun kv => if kv.1 = key then (key, q) else kv)
  else
    acc ++ [(key, q)]

/-- Second pass (`database.py:76-83`): `seen[p['id']] = p` over the batch,
then `list(seen.values())`. -/
def dedupLastById (l : List DbProduct) : List DbProduct :=
  (l.foldl (fun acc q => dictInsert acc q.id q) []).map Prod.snd

/-- Shallow embedding of `SupabaseDB.upsert_products` (`database.py:40-129`).
Returns the boolean the Python function returns, paired with the chunks
posted to the sink (each a `POST` the code performs whatever the previous
outcomes were). -/
def upsert_products (sink : List DbProduct → Bool) (products : List RawProduct) :
    Bool × List (List DbProduct) :=
  match products with
  | [] => (true, [])
  | _ :: _ =>
    let formatted := dedupFirstByKey (products.filterMap format_product_for_db)
    match formatted with
    | [] => (false, [])
    | _ :: _ =>
      let chunks := chunksOf 100 (dedupLastById formatted)
      let successCount : Nat :=
        (chunks.filter sink).foldl (fun a c => a + c.length) 0
      (decide (0 < successCount), chunks)

/-! ## `BrowserScraper.scrape_all_products`

The page is external.  What the `while` loop observes of one attempt's
"Load More" scan (`browser_scraper.py:76-209`) is exactly one of three
outcomes: no affordance was clicked and none was found disabled
(`button_clicked` stays `False` — covering "no matching button" and "every
click method failed"), the first matching button carried the `disabled`
attribute (`button_clicked` is set `True` with no click), or a click
succeeded (`button_clicked` is set `True` and `successful_clicks` is
incremented).  The extraction pass re-reads the whole visible set, so the
page is an oracle from the attempt number to that scan outcome and to the
currently extractable product list. -/

inductive ButtonScan where
  | noButton
  | disabledButton
  | clickedButton
deriving DecidableEq, Repr

structure ScrapeEnv (α : Type) where
  button : Nat → ButtonScan
  extract : Nat → List α

/-- The loop variables of `scrape_all_products` (`browser_scraper.py:58-64`). -/
structure LoopState (α : Type) where
  products : List α
  previousCount : Nat
  noChangeCount : Nat
  loadAttempts : Nat
  successfulClicks : Nat
deriving DecidableEq, Repr

def initLoopState (α : Type) : LoopState α := ⟨[], 0, 0, 0, 0⟩

/-- Which exit ended the `while` loop.  `noButtonGiveUp` is the
`load_attempts >= 15` break when nothing was clicked, `stalled` the
`no_change_count >= max_no_change` break, `maxProductsReached` the
product-cap break (or the loop condition on entry), `attemptBudget` the
`load_attempts < max_load_attempts` condition failing. -/
inductive StopReason where
  | maxProductsReached
  | attemptBudget
  | noButtonGiveUp
  | stalled
deriving DecidableEq, Repr

structure ScrapeResult (α : Type) where
  final : LoopState α
  reason : StopReason
deriving DecidableEq, Repr

/-- `max_no_change = 15` (`browser_scraper.py:61`). -/
def maxNoChange : Nat := 15

/-- `max_load_attempts = 100` (`browser_scraper.py:64`). -/
def maxLoadAttempts : Nat := 100

/-- The hard-coded `load_attempts >= 15` give-up when no button was clicked
(`browser_scraper.py:215`). -/
def noButtonGrace : Nat := 15

/-- The `while` loop of `scrape_all_products` (`browser_scraper.py:66-245`).
Structural recursion on a fuel that the wrapper sets above
`max_load_attempts`, so the fuel-exhausted branch is never taken from
`scrape_all_products` (each iteration raises `load_attempts` by one and
the loop condition bounds it by 100). -/
def scrapeLoop (env : ScrapeEnv α) (maxProducts : Nat) :
    Nat → LoopState α → ScrapeResult α
  | 0, s => ⟨s, StopReason.attemptBudget⟩
  | fuel + 1, s =>
    if s.products.length < maxProducts then
      if s.loadAttempts < maxLoadAttempts then
        let n := s.loadAttempts + 1
        let scan := env.button n
        if scan = ButtonScan.noButton ∧ noButtonGrace ≤ n then
          ⟨{ s with loadAttempts := n }, StopReason.noButtonGiveUp⟩
        else
          let clicks :=
            s.successfulClicks + (if scan = ButtonScan.clickedButton then 1 else 0)
          let current := env.extract n
          if s.previousCount < current.length then
            let s' : LoopState α := ⟨current, current.length, 0, n, clicks⟩
            if maxProducts ≤ s'.products.length then ⟨s', StopReason.maxProductsReached⟩
            else scrapeLoop env maxProducts fuel s'
          else
            let s' : LoopState α :=
              ⟨s.products, s.previousCount, s.noChangeCount + 1, n, clicks⟩
            if maxNoChange ≤ s'.noChangeCount then ⟨s', StopReason.stalled⟩
            else if maxProducts ≤ s'.products.length then ⟨s', StopReason.maxProductsReached⟩
            else scrapeLoop env maxProducts fuel s'
      else ⟨s, StopReason.attemptBudget⟩
    else ⟨s, StopReason.maxProductsReached⟩

/-- What `scrape_all_products` hands back: the (truncated) product list it
returns, plus the final loop state and exit, which the code reports in its
final log line. -/
structure ScrapeOutput (α : Type) where
  products : List α
  result : ScrapeResult α
deriving DecidableEq, Repr

/-- Shallow embedding of `BrowserScraper.scrape_all_products`
(`browser_scraper.py:33-255`): run the loop from the initial state and
return `products[:max_products]`. -/
def scrape_all_products (env : ScrapeEnv α) (maxProducts : Nat) : ScrapeOutput α :=
  let r := scrapeLoop env maxProducts (maxLoadAttempts + 1) (initLoopState α)
  ⟨r.final.products.take maxProducts, r⟩

/-! ## `BrowserScraper._extract_products_from_page`

Each container's extraction (`_extract_product_from_container` plus the
awaited element handles) is external: it can raise (the `except` branch of
the loop), return nothing (`if product_data:` falsy), or return a product.
The pass returns the extracted products in order together with the number
of per-container failures it logged. -/

def extract_products_from_page (containers : List (Except Unit (Option α))) :
    List α × Nat :=
  match containers with
  | [] => ([], 0)
  | c :: rest =>
    let r := extract_products_from_page rest
    match c with
    | Except.ok (some p) => (p :: r.1, r.2)
    | Except.ok none => r
    | Except.error _ => (r.1, r.2 + 1)

/-- A container whose extraction raised. -/
def containerRaises (c : Except Unit (Option α)) : Bool :=
  match c with
  | Except.error _ => true
  | Except.ok _ => false

/-- A container whose extraction returned a truthy record. -/
def containerYields (c : Except Unit (Option α)) : Bool :=
  match c with
  | Except.ok (some _) => true
  | _ => false

/-! ## Concrete fixtures used by witnesses and counterexamples -/

/-- A valid product record. -/
def rawFirst : RawProduct :=
  { source := some "scuffers"
    product_url := some "https://scuffers.com/products/tee"
    image_url := some "https://cdn.scuffers.com/tee-a.jpg"
    title := some "Tee A" }

/-- The same identity key as `rawFirst`, later in the batch, with a
different title. -/
def rawSecond : RawProduct := { rawFirst with title := some "Tee B" }

/-- A record whose `title` is missing. -/
def rawNoTitle : RawProduct :=
  { source := some "scuffers"
    product_url := some "https://scuffers.com/products/cap"
    image_url := some "https://cdn.scuffers.com/cap.jpg"
    title := none }

def raw8a : RawProduct :=
  { source := some "scuffers"
    product_url := some "https://scuffers.com/products/hoodie"
    image_url := some "https://cdn.scuffers.com/hoodie-1.jpg"
    title := some "Hoodie"
    price := some "59,99" }

/-- Same `(source, product_url)` pair as `raw8a`, different title, price
and image. -/
def raw8b : RawProduct :=
  { raw8a with
    title := some "Renamed Hoodie"
    price := some "79,99"
    image_url := some "https://cdn.scuffers.com/hoodie-2.jpg" }

/-- A page where the affordance scan always finds a disabled button and no
extraction ever yields a product. -/
def envDisabledEmpty : ScrapeEnv Nat :=
  ⟨fun _ => ButtonScan.disabledButton, fun _ => []⟩

/-- A page where no affordance is ever found and no extraction ever yields
a product. -/
def envNoButtonEmpty : ScrapeEnv Nat :=
  ⟨fun _ => ButtonScan.noButton, fun _ => []⟩

/-- An inert page used to exercise the product-cap exit. -/
def envIdle : ScrapeEnv Nat :=
  ⟨fun _ => ButtonScan.noButton, fun _ => []⟩

/-- `"1" + "0" * 309`: a price string whose numeric value exceeds the
largest finite IEEE-754 double. -/
def hugePriceStr : String := String.mk ('1' :: List.replicate 309 '0')

/-! ## Sanity checks against the spec round-trip values and the FIPS
180-4 test vector -/



example : parse_price (some "139,00 EUR") = some (PyFloat.finite (mkRat 139 1)) := by decide
example : parse_price (some "1.139,00") = some (PyFloat.finite (mkRat 1139 1000)) := by decide
example : parse_price (some "not a price") = none := by decide
example : parse_price none = none := by decide
example : parse_price (some "139.00") = some (PyFloat.finite (mkRat 139 1)) := by decide

example : sha256hex "abc" =
    "ba7816bf8f01cfea414140de5dae2223b00361a396177a9cb410ff61f20015ad" := by decide

/-! ## Helper lemmas about the embedded operations -/

theorem chunksOfGo_flatten (n : Nat) :
    ∀ (fuel : Nat) (l : List α), l.length ≤ fuel → (chunksOfGo n fuel l).flatten = l := by
  intro fuel
  induction fuel with
  | zero =>
    intro l hl
    cases l with
    | nil => rfl
    | cons x xs => simp at hl
  | succ fuel ih =>
    intro l hl
    cases l with
    | nil => rfl
    | cons x xs =>
      simp only [chunksOfGo, List.flatten_cons]
      rw [ih (xs.drop (n - 1)) (by simp at hl ⊢; omega)]
      simp [List.take_append_drop]

theorem chunksOf_flatten (n : Nat) (l : List α) : (chunksOf n l).flatten = l :=
  chunksOfGo_flatten n l.length l le_rfl

theorem mem_of_mem_chunksOf {n : Nat} {l : List α} {c : List α} {a : α}
    (hc : c ∈ chunksOf n l) (ha : a ∈ c) : a ∈ l := by
  rw [← chunksOf_flatten n l]
  exact List.mem_flatten.mpr ⟨c, hc, ha⟩

theorem chunksOfGo_mem_shape (n : Nat) (hn : 1 ≤ n) :
    ∀ (fuel : Nat) (l : List α) (c : List α), c ∈ chunksOfGo n fuel l →
      c ≠ [] ∧ c.length ≤ n := by
  intro fuel
  induction fuel with
  | zero =>
    intro l c hc
    cases l <;> simp [chunksOfGo] at hc
  | succ fuel ih =>
    intro l c hc
    cases l with
    | nil => simp [chunksOfGo] at hc
    | cons x xs =>
      simp only [chunksOfGo, List.mem_cons] at hc
      rcases hc with hc | hc
      · subst hc
        refine ⟨by simp, ?_⟩
        simp only [List.length_cons, List.length_take]
        omega
      · exact ih _ _ hc

theorem mem_chunksOf_shape {n : Nat} (hn : 1 ≤ n) {l : List α} {c : List α}
    (hc : c ∈ chunksOf n l) : c ≠ [] ∧ c.length ≤ n :=
  chunksOfGo_mem_shape n hn l.length l c hc

theorem foldl_add_length (l : List (List DbProduct)) :
    ∀ i : Nat, l.foldl (fun a c => a + c.length) i = i + (l.map List.length).sum := by
  induction l with
  | nil => intro i; simp
  | cons c rest ih =>
    intro i
    simp only [List.foldl_cons, List.map_cons, List.sum_cons]
    rw [ih]
    omega

theorem success_pos_iff (sink : List DbProduct → Bool) (chunks : List (List DbProduct))
    (hne : ∀ c ∈ chunks, c ≠ []) :
    0 < (chunks.filter sink).foldl (fun a c => a + c.length) 0 ↔
      ∃ c ∈ chunks, sink c = true := by
  induction chunks with
  | nil => simp
  | cons c rest ih =>
    have hrest : ∀ d ∈ rest, d ≠ [] := fun d hd => hne d (List.mem_cons_of_mem _ hd)
    by_cases hs : sink c
    · have hcne : c ≠ [] := hne c (List.mem_cons_self c rest)
      simp only [List.filter_cons, hs, if_true, foldl_add_length, List.map_cons,
        List.sum_cons]
      constructor
      · intro _; exact ⟨c, List.mem_cons_self c rest, hs⟩
      · intro _
        have : 0 < c.length := List.length_pos_of_ne_nil hcne
        omega
    · simp only [List.filter_cons, hs, Bool.false_eq_true, if_false]
      rw [ih hrest]
      constructor
      · intro ⟨d, hd, hsd⟩
        exact ⟨d, List.mem_cons_of_mem _ hd, hsd⟩
      · intro ⟨d, hd, hsd⟩
        rcases List.mem_cons.mp hd with rfl | hd
        · exact absurd hsd (by simp [hs])
        · exact ⟨d, hd, hsd⟩

theorem contains_eq_false_iff (m : List String) (a : String) :
    m.contains a = false ↔ a ∉ m := by
  rw [← Bool.not_eq_true, not_iff_not]
  exact List.elem_iff

theorem dictInsert_mem {acc : List (String × DbProduct)} {key : String} {q kv}
    (h : kv ∈ dictInsert acc key q) : kv ∈ acc ∨ kv.2 = q := by
  unfold dictInsert at h
  split at h
  · rcases List.mem_map.mp h with ⟨kv', hkv', heq⟩
    by_cases hk : kv'.1 = key
    · right; simp [hk] at heq; rw [← heq]
    · left; rw [if_neg hk] at heq; exact heq ▸ hkv'
  · rcases List.mem_append.mp h with h | h
    · exact Or.inl h
    · right; simp at h; rw [h]

theorem dictFold_mem {l : List DbProduct} :
    ∀ {acc : List (String × DbProduct)} {kv},
      kv ∈ l.foldl (fun a q => dictInsert a q.id q) acc → kv ∈ acc ∨ kv.2 ∈ l := by
  induction l with
  | nil => intro acc kv h; exact Or.inl h
  | cons q rest ih =>
    intro acc kv h
    simp only [List.foldl_cons] at h
    rcases ih h with h' | h'
    · rcases dictInsert_mem h' with h'' | h''
      · exact Or.inl h''
      · exact Or.inr (h'' ▸ List.mem_cons_self q rest)
    · exact Or.inr (List.mem_cons_of_mem _ h')

theorem dedupLastById_subset {l : List DbProduct} {q : DbProduct}
    (h : q ∈ dedupLastById l) : q ∈ l := by
  unfold dedupLastById at h
  rcases List.mem_map.mp h with ⟨kv, hkv, hsnd⟩
  rcases dictFold_mem hkv with h' | h'
  · simp at h'
  · exact hsnd ▸ h'

theorem dictFold_append (l : List DbProduct) :
    ∀ (acc : List (String × DbProduct)),
      (∀ q ∈ l, (acc.map Prod.fst).contains q.id = false) →
      (l.map DbProduct.id).Nodup →
      l.foldl (fun a q => dictInsert a q.id q) acc =
        acc ++ l.map (fun q => (q.id, q)) := by
  induction l with
  | nil => intro acc _ _; simp
  | cons q rest ih =>
    intro acc hacc hnd
    simp only [List.map_cons, List.nodup_cons] at hnd
    have hq : (acc.map Prod.fst).contains q.id = false :=
      hacc q (List.mem_cons_self q rest)
    simp only [List.foldl_cons]
    rw [show dictInsert acc q.id q = acc ++ [(q.id, q)] by unfold dictInsert; rw [hq]; simp]
    rw [ih (acc ++ [(q.id, q)]) ?_ hnd.2]
    · simp
    · intro r hr
      rw [contains_eq_false_iff]
      have h1 : r.id ∉ acc.map Prod.fst :=
        (contains_eq_false_iff _ _).mp (hacc r (List.mem_cons_of_mem _ hr))
      have h2 : r.id ∈ rest.map DbProduct.id := List.mem_map.mpr ⟨r, hr, rfl⟩
      have hne : r.id ≠ q.id := fun he => hnd.1 (he ▸ h2)
      simp only [List.map_append, List.mem_append, List.map_cons, List.map_nil,
        List.mem_cons, List.not_mem_nil, or_false]
      rintro (h | h)
      · exact h1 h
      · exact hne h

theorem dedupLastById_eq_self {l : List DbProduct}
    (h : (l.map DbProduct.id).Nodup) : dedupLastById l = l := by
  unfold dedupLastById
  rw [dictFold_append l [] (by intro q _; rw [contains_eq_false_iff]; simp) h]
  simp only [List.nil_append, List.map_map]
  have : (Prod.snd ∘ fun q : DbProduct => (q.id, q)) = id := rfl
  rw [this, List.map_id]

theorem dedupFirst_fold_mem (l : List DbProduct) :
    ∀ (acc : List DbProduct × List String) (q : DbProduct),
      q ∈ (l.foldl
        (fun acc q =>
          if (acc.2.contains (dedupKey q) : Bool) then acc
          else (acc.1 ++ [q], dedupKey q :: acc.2)) acc).1 →
      q ∈ acc.1 ∨ q ∈ l := by
  induction l with
  | nil => intro acc q h; exact Or.inl h
  | cons r rest ih =>
    intro acc q h
    simp only [List.foldl_cons] at h
    rcases ih _ q h with h' | h'
    · split at h'
      · exact Or.inl h'
      · rcases List.mem_append.mp h' with h'' | h''
        · exact Or.inl h''
        · simp at h''
          exact Or.inr (h'' ▸ List.mem_cons_self r rest)
    · exact Or.inr (List.mem_cons_of_mem _ h')

theorem dedupFirstByKey_subset {l : List DbProduct} {q : DbProduct}
    (h : q ∈ dedupFirstByKey l) : q ∈ l := by
  unfold dedupFirstByKey at h
  rcases dedupFirst_fold_mem l _ q h with h' | h'
  · simp at h'
  · exact h'

theorem upsert_products_nil (sink : List DbProduct → Bool) :
    upsert_products sink [] = (true, []) := rfl

theorem upsert_products_snd (sink : List DbProduct → Bool)
    {products : List RawProduct} (h : products ≠ []) :
    (upsert_products sink products).2 =
      chunksOf 100 (dedupLastById (dedupFirstByKey
        (products.filterMap format_product_for_db))) := by
  cases products with
  | nil => exact absurd rfl h
  | cons p rest =>
    simp only [upsert_products]
    cases hf : dedupFirstByKey ((p :: rest).filterMap format_product_for_db) with
    | nil => simp only [hf]; rfl
    | cons q qs => simp [hf]

theorem upsert_products_fst (sink : List DbProduct → Bool)
    {products : List RawProduct} (h : products ≠ []) :
    ((upsert_products sink products).1 = true ↔
      ∃ c ∈ (upsert_products sink products).2, sink c = true) := by
  cases products with
  | nil => exact absurd rfl h
  | cons p rest =>
    simp only [upsert_products]
    cases hf : dedupFirstByKey ((p :: rest).filterMap format_product_for_db) with
    | nil => simp [hf]
    | cons q qs =>
      simp only [hf, decide_eq_true_eq]
      rw [success_pos_iff]
      intro c hc
      exact (mem_chunksOf_shape (by omega) hc).1

theorem decimalValue_nonneg (i f : List Char) : 0 ≤ decimalValue i f := by
  unfold decimalValue
  rw [Rat.mkRat_eq_div]
  apply div_nonneg
  · exact_mod_cast Int.ofNat_nonneg _
  · exact_mod_cast Nat.zero_le _

theorem floatOfToken_shape (tok : List Char) :
    floatOfToken tok = none ∨ floatOfToken tok = some PyFloat.inf ∨
      ∃ q : Rat, floatOfToken tok = some (PyFloat.finite q) ∧ 0 ≤ q := by
  unfold floatOfToken
  split
  · by_cases hq : doubleOvfThreshold ≤
      decimalValue (tok.takeWhile (fun c => c ≠ '.'))
        ((tok.dropWhile (fun c => c ≠ '.')).drop 1)
    · exact Or.inr (Or.inl (by simp only [if_pos hq]))
    · refine Or.inr (Or.inr ⟨decimalValue (tok.takeWhile (fun c => c ≠ '.'))
        ((tok.dropWhile (fun c => c ≠ '.')).drop 1), ?_, decimalValue_nonneg _ _⟩)
      simp only [if_neg hq]
  · exact Or.inl rfl

theorem parseFromChars_shape (cs : List Char) :
    parseFromChars cs = none ∨ parseFromChars cs = some PyFloat.inf ∨
      ∃ q : Rat, parseFromChars cs = some (PyFloat.finite q) ∧ 0 ≤ q := by
  unfold parseFromChars
  cases firstNumToken cs with
  | none => exact Or.inl rfl
  | some tok => exact floatOfToken_shape tok

theorem extract_counts (cs : List (Except Unit (Option α))) :
    (extract_products_from_page cs).1.length = cs.countP containerYields ∧
      (extract_products_from_page cs).2 = cs.countP containerRaises := by
  induction cs with
  | nil => exact ⟨rfl, rfl⟩
  | cons c rest ih =>
    obtain ⟨ih1, ih2⟩ := ih
    cases c with
    | ok v =>
      cases v with
      | some p =>
        simp [extract_products_from_page, List.countP_cons, containerYields,
          containerRaises, ih1, ih2]
      | none =>
        simp [extract_products_from_page, List.countP_cons, containerYields,
          containerRaises, ih1, ih2]
    | error e =>
      simp [extract_products_from_page, List.countP_cons, containerYields,
        containerRaises, ih1, ih2]

theorem clickedIfFalse :
    (if ButtonScan.noButton = ButtonScan.clickedButton then 1 else 0) = 0 := rfl

theorem disabledIfFalse :
    (if ButtonScan.disabledButton = ButtonScan.clickedButton then 1 else 0) = 0 := rfl

theorem scrapeLoop_noButton (env : ScrapeEnv α) (m : Nat)
    (hb : ∀ n, env.button n = ButtonScan.noButton) :
    ∀ (fuel : Nat) (s : LoopState α),
      s.noChangeCount ≤ s.loadAttempts →
      s.loadAttempts < noButtonGrace →
      noButtonGrace < s.loadAttempts + fuel →
      (scrapeLoop env m fuel s).final.loadAttempts ≤ noButtonGrace ∧
        ((scrapeLoop env m fuel s).reason = StopReason.noButtonGiveUp ∨
         (scrapeLoop env m fuel s).reason = StopReason.maxProductsReached) := by
  intro fuel
  induction fuel with
  | zero =>
    intro s h1 h2 h3
    omega
  | succ fuel ih =>
    intro s h1 h2 h3
    simp only [noButtonGrace] at h2 h3 ⊢
    by_cases hp : s.products.length < m
    · have hl : s.loadAttempts < maxLoadAttempts := by
        simp only [maxLoadAttempts]; omega
      simp only [scrapeLoop, if_pos hp, if_pos hl, hb, true_and, noButtonGrace,
        clickedIfFalse, Nat.add_zero]
      by_cases hg : 15 ≤ s.loadAttempts + 1
      · rw [if_pos hg]
        exact ⟨by simp; omega, Or.inl (by trivial)⟩
      · rw [if_neg hg]
        by_cases hgrow : s.previousCount < (env.extract (s.loadAttempts + 1)).length
        · rw [if_pos hgrow]
          by_cases hcap : m ≤ (env.extract (s.loadAttempts + 1)).length
          · rw [if_pos hcap]
            exact ⟨by simp; omega, Or.inr (by trivial)⟩
          · rw [if_neg hcap]
            have := ih ⟨env.extract (s.loadAttempts + 1),
              (env.extract (s.loadAttempts + 1)).length, 0, s.loadAttempts + 1,
              s.successfulClicks⟩
              (by simp) (by simp only [noButtonGrace]; omega)
              (by simp only [noButtonGrace]; omega)
            simpa only [noButtonGrace] using this
        · rw [if_neg hgrow]
          have hstall : ¬ (maxNoChange ≤ s.noChangeCount + 1) := by
            simp only [maxNoChange]; omega
          rw [if_neg hstall]
          rw [if_neg (show ¬ (m ≤ s.products.length) by omega)]
          have := ih ⟨s.products, s.previousCount, s.noChangeCount + 1,
            s.loadAttempts + 1, s.successfulClicks⟩
            (by simp; omega) (by simp only [noButtonGrace]; omega)
            (by simp only [noButtonGrace]; omega)
          simpa only [noButtonGrace] using this
    · simp only [scrapeLoop, if_neg hp]
      exact ⟨by omega, Or.inr (by trivial)⟩

theorem scrapeLoop_disabled (env : ScrapeEnv α) (m : Nat) (hm : 0 < m)
    (hb : ∀ n, env.button n = ButtonScan.disabledButton)
    (he : ∀ n, env.extract n = ([] : List α)) :
    ∀ (fuel : Nat) (s : LoopState α),
      s.products = [] →
      s.previousCount = 0 →
      s.successfulClicks = 0 →
      s.noChangeCount = s.loadAttempts →
      s.loadAttempts < maxNoChange →
      maxNoChange < s.loadAttempts + fuel →
      scrapeLoop env m fuel s =
        ⟨⟨[], 0, maxNoChange, maxNoChange, 0⟩, StopReason.stalled⟩ := by
  intro fuel
  induction fuel with
  | zero =>
    intro s _ _ _ _ h5 h6
    omega
  | succ fuel ih =>
    intro s h1 h2 h3 h4 h5 h6
    have hp : s.products.length < m := by rw [h1]; simpa using hm
    have hl : s.loadAttempts < maxLoadAttempts := by
      simp only [maxNoChange] at h5
      simp only [maxLoadAttempts]
      omega
    simp only [scrapeLoop, if_pos hp, if_pos hl, hb, he, disabledIfFalse,
      Nat.add_zero, h3, List.length_nil]
    rw [if_neg (show ¬ (ButtonScan.disabledButton = ButtonScan.noButton ∧
      noButtonGrace ≤ s.loadAttempts + 1) from fun hc => ButtonScan.noConfusion hc.1)]
    rw [if_neg (show ¬ (s.previousCount < 0) by omega)]
    by_cases hst : maxNoChange ≤ s.noChangeCount + 1
    · rw [if_pos hst]
      simp only [maxNoChange] at hst h5
      have hnc : s.noChangeCount = 14 := by omega
      have hla : s.loadAttempts = 14 := by omega
      rw [h1, h2, hnc, hla]
      rfl
    · rw [if_neg hst]
      rw [if_neg (show ¬ (m ≤ s.products.length) by rw [h1]; simp; omega)]
      exact ih ⟨s.products, s.previousCount, s.noChangeCount + 1, s.loadAttempts + 1, 0⟩
        h1 h2 rfl (by simp [h4]) (by simp only [maxNoChange] at hst ⊢; omega)
        (by simp only [maxNoChange] at h6 ⊢; omega)

theorem format_eq {p : RawProduct} {q : DbProduct}
    (h : format_product_for_db p = some q) :
    p.source = some q.source ∧ p.product_url = some q.product_url ∧
      q.id = sha256hex (q.source ++ ":" ++ q.product_url) := by
  unfold format_product_for_db at h
  rcases hs : p.source with _ | src <;> rw [hs] at h <;>
    rcases hu : p.product_url with _ | url <;> rw [hu] at h <;>
    rcases hi : p.image_url with _ | img <;> rw [hi] at h <;>
    rcases ht : p.title with _ | ttl <;> rw [ht] at h <;>
    simp only [] at h
  all_goals try exact Option.noConfusion h
  split at h
  · exact absurd h (by simp)
  · rw [← Option.some_inj.mp h]
    exact ⟨rfl, rfl, rfl⟩

/-- C8: for all `(source, product_url)` pairs accepted by the formatter,
the record id is the SHA-256 hex digest of `source ++ ":" ++ product_url`;
it is a pure function of that pair — two records with the same pair get
the same id, whatever their title, price, or image values. -/
theorem claim8_identity (p₁ p₂ : RawProduct) (q₁ q₂ : DbProduct)
    (h₁ : format_product_for_db p₁ = some q₁)
    (h₂ : format_product_for_db p₂ = some q₂)
    (hs : p₁.source = p₂.source) (hu : p₁.product_url = p₂.product_url) :
    q₁.id = sha256hex (q₁.source ++ ":" ++ q₁.product_url) ∧ q₁.id = q₂.id := by
  obtain ⟨hs₁, hu₁, hid₁⟩ := format_eq h₁
  obtain ⟨hs₂, hu₂, hid₂⟩ := format_eq h₂
  refine ⟨hid₁, ?_⟩
  have es : q₁.source = q₂.source := by
    have := hs₁.symm.trans (hs.trans hs₂)
    exact Option.some_inj.mp this
  have eu : q₁.product_url = q₂.product_url := by
    have := hu₁.symm.trans (hu.trans hu₂)
    exact Option.some_inj.mp this
  rw [hid₁, hid₂, es, eu]

/-- Witness for C8 at a concrete pair: `raw8a` and `raw8b` share
`(source, product_url)` but differ in title, price and image, and get
equal ids. -/
theorem claim8_identity_witness :
    ((format_product_for_db raw8a).get (by decide)).id =
      ((format_product_for_db raw8b).get (by decide)).id :=
  (claim8_identity raw8a raw8b _ _ (Option.some_get _).symm (Option.some_get _).symm
    rfl rfl).2

/-- C7: a record missing any of `source`, `product_url`, `image_url`,
`title` is dropped by the formatter, and every record in any chunk posted
by `upsert_products` is the formatter's (`some`) output on some input
record — so a record with a missing required field never reaches a
payload. -/
theorem claim7_required_field_gate (p : RawProduct) (sink : List DbProduct → Bool)
    (products : List RawProduct) :
    ((p.source = none ∨ p.product_url = none ∨ p.image_url = none ∨ p.title = none) →
      format_product_for_db p = none) ∧
    (∀ c ∈ (upsert_products sink products).2, ∀ q ∈ c,
      ∃ r ∈ products, format_product_for_db r = some q) := by
  constructor
  · intro hr
    unfold format_product_for_db
    rcases hps : p.source with _ | s₁ <;> rcases hpu : p.product_url with _ | s₂ <;>
      rcases hpi : p.image_url with _ | s₃ <;> rcases hpt : p.title with _ | s₄ <;>
      simp_all
  · intro c hc q hq
    cases products with
    | nil =>
      rw [upsert_products_nil] at hc
      simp at hc
    | cons r rest =>
      rw [upsert_products_snd sink (by simp)] at hc
      have h1 : q ∈ dedupLastById (dedupFirstByKey
          ((r :: rest).filterMap format_product_for_db)) :=
        mem_of_mem_chunksOf hc hq
      have h2 := dedupFirstByKey_subset (dedupLastById_subset h1)
      exact List.mem_filterMap.mp h2

/-- Witness for C7: a record with a missing title is rejected by the
formatter. -/
theorem claim7_required_field_gate_witness :
    format_product_for_db rawNoTitle = none :=
  (claim7_required_field_gate rawNoTitle (fun _ => true) []).1
    (Or.inr (Or.inr (Or.inr rfl)))

/-- C1 counterexample: `rawFirst` and `rawSecond` map to the same identity
key; the batch `[rawFirst, rawSecond]` submits only the FIRST occurrence
(title `"Tee A"`), not the last (`"Tee B"`), because the
`source:product_url` set-based dedup at `database.py:57-68` keeps the
first occurrence before the id-keyed last-wins dict pass ever runs. -/
theorem claim1_counterexample :
    (upsert_products (fun _ => true) [rawFirst, rawSecond]).2.flatten.map DbProduct.title
      = ["Tee A"] ∧
    rawSecond.title = some "Tee B" ∧ "Tee A" ≠ "Tee B" := by decide

/-- C1 as amended: within a single run, the unique set submitted to the
sink is the FIRST-occurrence dedup of the formatted batch, keyed by
`source:product_url` (first-write-wins); the later id-keyed mapping, which
alone would keep the last occurrence, only ever sees already-unique keys.
Stated for every batch whose distinct keys have distinct SHA-256 ids. -/
theorem claim1_amended (sink : List DbProduct → Bool) (products : List RawProduct)
    (hids : ((dedupFirstByKey (products.filterMap format_product_for_db)).map
      DbProduct.id).Nodup) :
    (upsert_products sink products).2.flatten =
      dedupFirstByKey (products.filterMap format_product_for_db) := by
  cases products with
  | nil => rfl
  | cons p rest =>
    rw [upsert_products_snd sink (by simp), chunksOf_flatten,
      dedupLastById_eq_self hids]

/-- Witness for C1 as amended, on the concrete duplicate batch. -/
theorem claim1_amended_witness :
    (upsert_products (fun _ => false) [rawFirst, rawSecond]).2.flatten =
      dedupFirstByKey ([rawFirst, rawSecond].filterMap format_product_for_db) :=
  claim1_amended (fun _ => false) [rawFirst, rawSecond] (by decide)

/-- C5: the upsert driver returns success on an empty batch without posting
anything; the chunks it posts do not depend on the sink's outcomes (a
failed chunk is skipped and the rest are still attempted); every posted
chunk is nonempty and at most the fixed chunk size 100; and for a nonempty
batch the operation reports success iff at least one chunk succeeded. -/
theorem claim5_partial_failure (sink sink' : List DbProduct → Bool)
    (products : List RawProduct) :
    upsert_products sink [] = (true, []) ∧
    (upsert_products sink products).2 = (upsert_products sink' products).2 ∧
    (∀ c ∈ (upsert_products sink products).2, c ≠ [] ∧ c.length ≤ 100) ∧
    (products ≠ [] →
      ((upsert_products sink products).1 = true ↔
        ∃ c ∈ (upsert_products sink products).2, sink c = true)) := by
  refine ⟨upsert_products_nil sink, ?_, ?_, fun h => upsert_products_fst sink h⟩
  · cases products with
    | nil => rfl
    | cons p rest =>
      rw [upsert_products_snd sink (by simp), upsert_products_snd sink' (by simp)]
  · intro c hc
    cases products with
    | nil =>
      rw [upsert_products_nil] at hc
      simp at hc
    | cons p rest =>
      rw [upsert_products_snd sink (by simp)] at hc
      exact mem_chunksOf_shape (by omega) hc

/-- Witness for C5 on a concrete nonempty batch and concrete sinks. -/
theorem claim5_partial_failure_witness :
    upsert_products (fun _ => true) ([] : List RawProduct) = (true, []) ∧
    (upsert_products (fun _ => true) [rawFirst]).2 =
      (upsert_products (fun _ => false) [rawFirst]).2 ∧
    ((upsert_products (fun _ => true) [rawFirst]).1 = true ↔
      ∃ c ∈ (upsert_products (fun _ => true) [rawFirst]).2,
        (fun _ : List DbProduct => true) c = true) := by
  obtain ⟨h1, h2, _, h4⟩ :=
    claim5_partial_failure (fun _ => true) (fun _ => false) [rawFirst]
  exact ⟨h1, h2, h4 (by simp)⟩

/-- C2 counterexample: the claim expects `parsePrice("1.139,00") == 1139.00`,
but the code strips the commas and keeps the period
(`"1.139,00" → "1.13900"`), so it parses to `1.139`, not `1139`. -/
theorem claim2_counterexample :
    parse_price (some "1.139,00") = some (PyFloat.finite (mkRat 1139 1000)) ∧
    mkRat 1139 1000 ≠ mkRat 1139 1 := by decide

/-- C2 as amended: `parsePrice("139,00 EUR") == 139.00`,
`parsePrice("1.139,00") == 1.139` (not `1139.00` — commas are stripped as
thousands separators while periods are kept, so the European
period-as-thousands format is misread), `parsePrice("not a price") ==
null`, `parsePrice(None) == null`; in general a nonempty string whose
stripped form contains a comma but no period has every comma rewritten to
a period before the first numeric token is parsed, and one containing
both has its commas stripped before the first numeric token is parsed. -/
theorem claim2_amended :
    parse_price (some "139,00 EUR") = some (PyFloat.finite (mkRat 139 1)) ∧
    parse_price (some "1.139,00") = some (PyFloat.finite (mkRat 1139 1000)) ∧
    parse_price (some "not a price") = none ∧
    parse_price none = none ∧
    (∀ s : String, ¬ s = "" →
      (pyStrip s.toList).contains ',' = true →
      (pyStrip s.toList).contains '.' = false →
      parse_price (some s) = parseFromChars (commaToDot (pyStrip s.toList))) ∧
    (∀ s : String, ¬ s = "" →
      (pyStrip s.toList).contains ',' = true →
      (pyStrip s.toList).contains '.' = true →
      parse_price (some s) = parseFromChars (stripCommas (pyStrip s.toList))) := by
  refine ⟨by decide, by decide, by decide, rfl, ?_, ?_⟩
  · intro s hne hc hd
    simp only [parse_price, if_neg hne]
    rw [if_pos ⟨hc, fun h => Bool.false_ne_true (hd ▸ h)⟩]
  · intro s hne hc hd
    simp only [parse_price, if_neg hne]
    rw [if_neg (fun hcon => hcon.2 hd), if_pos ⟨hc, hd⟩]

/-- Witness for C2 as amended: the comma-only and comma-and-period rules
applied at concrete inputs. -/
theorem claim2_amended_witness :
    parse_price (some "9,5") = parseFromChars (commaToDot (pyStrip "9,5".toList)) ∧
    parse_price (some "1.9,5") =
      parseFromChars (stripCommas (pyStrip "1.9,5".toList)) :=
  ⟨claim2_amended.2.2.2.2.1 "9,5" (by decide) (by decide) (by decide),
   claim2_amended.2.2.2.2.2 "1.9,5" (by decide) (by decide) (by decide)⟩

/-- C6 counterexample: price parsing can return a non-finite value rather
than degrading it to null — on the 310-digit input `"1" + "0"*309` the
code's `float` call overflows to `inf` and the result is returned as-is
(there is no finiteness check in `_parse_price`). -/
theorem claim6_counterexample :
    parse_price (some hugePriceStr) = some PyFloat.inf ∧
    some PyFloat.inf ≠ (none : Option PyFloat) := by decide

/-- C6 as amended: price parsing is total (never throws — the embedding is
a total function and every Python failure path is caught and returns
`None`), and its result is always null or a NON-NEGATIVE value; absence of
a numeric token yields null, but a non-finite `float` result is returned
as `inf`, not degraded to null. -/
theorem claim6_amended (ps : Option String) :
    parse_price ps = none ∨ parse_price ps = some PyFloat.inf ∨
      ∃ q : Rat, parse_price ps = some (PyFloat.finite q) ∧ 0 ≤ q := by
  cases ps with
  | none => exact Or.inl rfl
  | some s =>
    by_cases hne : s = ""
    · exact Or.inl (by simp [parse_price, hne])
    · simp only [parse_price, if_neg hne]
      split_ifs <;> exact parseFromChars_shape _

/-- C3 counterexample: on a page whose affordance scan finds a disabled
"Load More" button on every attempt (including attempt 1) and whose
extraction never grows, the controller does NOT converge on that attempt:
it runs 15 attempts and terminates only by exhausting the entire stall
counter (`no_change_count` reaches `max_no_change = 15`), because the
disabled branch only breaks the button-search loop, not the `while` loop. -/
theorem claim3_counterexample :
    envDisabledEmpty.button 1 = ButtonScan.disabledButton ∧
    (scrape_all_products envDisabledEmpty 1000).result.final.loadAttempts = 15 ∧
    (scrape_all_products envDisabledEmpty 1000).result.final.noChangeCount = 15 ∧
    (scrape_all_products envDisabledEmpty 1000).result.reason = StopReason.stalled := by
  decide

/-- C3 as amended: a disabled affordance is treated as "attempt handled"
(no click is issued, `successful_clicks` stays 0, and the no-affordance
give-up path is bypassed), but the controller does not short-circuit to a
terminal state: it proceeds to extraction and, when no growth ever occurs,
terminates through the stall counter after `max_no_change = 15` no-growth
attempts. -/
theorem claim3_amended (α : Type) (env : ScrapeEnv α) (m : Nat) (hm : 0 < m)
    (hb : ∀ n, env.button n = ButtonScan.disabledButton)
    (he : ∀ n, env.extract n = ([] : List α)) :
    (scrape_all_products env m).result =
      ⟨⟨[], 0, maxNoChange, maxNoChange, 0⟩, StopReason.stalled⟩ :=
  scrapeLoop_disabled env m hm hb he (maxLoadAttempts + 1) (initLoopState α)
    rfl rfl rfl rfl (by show 0 < maxNoChange; decide)
    (by show maxNoChange < 0 + (maxLoadAttempts + 1); decide)

/-- Witness for C3 as amended at a concrete page and cap. -/
theorem claim3_amended_witness :
    (scrape_all_products envDisabledEmpty 5).result =
      ⟨⟨[], 0, maxNoChange, maxNoChange, 0⟩, StopReason.stalled⟩ :=
  claim3_amended Nat envDisabledEmpty 5 (by decide) (fun _ => rfl) (fun _ => rfl)

/-- C4 counterexample: with no affordance ever discoverable the controller
gives up only at attempt 15 (`load_attempts >= 15` at
`browser_scraper.py:215`), far beyond the claimed default grace period of
3 attempts. -/
theorem claim4_counterexample :
    (scrape_all_products envNoButtonEmpty 1000).result.reason =
      StopReason.noButtonGiveUp ∧
    (scrape_all_products envNoButtonEmpty 1000).result.final.loadAttempts = 15 ∧
    ¬ ((scrape_all_products envNoButtonEmpty 1000).result.final.loadAttempts ≤ 3) := by
  decide

/-- C4 as amended: for every run in which no reveal affordance is ever
discoverable, the controller terminates at or before 15 attempts (the
code's no-affordance grace period is the hard-coded 15, not 3) and ends in
the give-up state (`Exhausted`) unless the product cap stops it first. -/
theorem claim4_amended (α : Type) (env : ScrapeEnv α) (m : Nat)
    (hb : ∀ n, env.button n = ButtonScan.noButton) :
    (scrape_all_products env m).result.final.loadAttempts ≤ noButtonGrace ∧
      ((scrape_all_products env m).result.reason = StopReason.noButtonGiveUp ∨
       (scrape_all_products env m).result.reason = StopReason.maxProductsReached) :=
  scrapeLoop_noButton env m hb (maxLoadAttempts + 1) (initLoopState α)
    (by show (0 : Nat) ≤ 0; decide) (by show 0 < noButtonGrace; decide)
    (by show noButtonGrace < 0 + (maxLoadAttempts + 1); decide)

/-- Witness for C4 as amended at a concrete page and cap. -/
theorem claim4_amended_witness :
    (scrape_all_products envNoButtonEmpty 7).result.final.loadAttempts ≤
      noButtonGrace ∧
      ((scrape_all_products envNoButtonEmpty 7).result.reason =
          StopReason.noButtonGiveUp ∨
       (scrape_all_products envNoButtonEmpty 7).result.reason =
          StopReason.maxProductsReached) :=
  claim4_amended Nat envNoButtonEmpty 7 (fun _ => rfl)

/-- C9: an exception while extracting one container is isolated to that
container — for any batch of 10 containers in which exactly one raises
and the others each yield a record, the pass returns 9 records and logs
the single failure. -/
theorem claim9_isolation (α : Type) (cs : List (Except Unit (Option α)))
    (hlen : cs.length = 10)
    (hone : cs.countP containerRaises = 1)
    (hall : ∀ c ∈ cs, containerRaises c = true ∨ containerYields c = true) :
    (extract_products_from_page cs).1.length = 9 ∧
      (extract_products_from_page cs).2 = 1 := by
  obtain ⟨e1, e2⟩ := extract_counts cs
  refine ⟨?_, by rw [e2, hone]⟩
  rw [e1]
  have h2 : cs.countP containerYields =
      cs.countP (fun c => decide ¬ (containerRaises c = true)) := by
    apply List.countP_congr
    intro c hc
    simp only [decide_eq_true_eq]
    constructor
    · intro hy
      cases c with
      | error e => simp [containerYields] at hy
      | ok v => simp [containerRaises]
    · intro hnr
      rcases hall c hc with h | h
      · exact absurd h hnr
      · exact h
  have h3 := List.length_eq_countP_add_countP containerRaises cs
  omega

/-- Witness for C9: ten concrete containers with the fifth raising. -/
theorem claim9_isolation_witness :
    (extract_products_from_page
      ([Except.ok (some 1), Except.ok (some 2), Except.ok (some 3),
        Except.ok (some 4), Except.error (), Except.ok (some 6),
        Except.ok (some 7), Except.ok (some 8), Except.ok (some 9),
        Except.ok (some 10)] : List (Except Unit (Option Nat)))).1.length = 9 ∧
    (extract_products_from_page
      ([Except.ok (some 1), Except.ok (some 2), Except.ok (some 3),
        Except.ok (some 4), Except.error (), Except.ok (some 6),
        Except.ok (some 7), Except.ok (some 8), Except.ok (some 9),
        Except.ok (some 10)] : List (Except Unit (Option Nat)))).2 = 1 :=
  claim9_isolation Nat _ (by decide) (by decide) (by decide)

/-- C10: the browser scrape never returns more than `max_products`
records — the loop body stops as soon as the retained count reaches the
cap, and the returned list is `products[:max_products]`. -/
theorem claim10_truncation (α : Type) (env : ScrapeEnv α) (m : Nat) :
    (scrape_all_products env m).products.length ≤ m ∧
    (∀ (fuel : Nat) (s : LoopState α), m ≤ s.products.length →
      scrapeLoop env m (fuel + 1) s = ⟨s, StopReason.maxProductsReached⟩) := by
  constructor
  · simp only [scrape_all_products, List.length_take]
    exact Nat.min_le_left _ _
  · intro fuel s h
    simp only [scrapeLoop, if_neg (Nat.not_lt.mpr h)]

/-- Witness for C10's loop-stop clause at a concrete state already at the
cap. -/
theorem claim10_truncation_witness :
    scrapeLoop envIdle 0 8 (initLoopState Nat) =
      ⟨initLoopState Nat, StopReason.maxProductsReached⟩ :=
  (claim10_truncation Nat envIdle 0).2 7 (initLoopState Nat) (by decide)
